import Mathlib

/-!
Shallow embedding of the Bầu Cua dice game component
(`src/src/components/BauCuaGame.tsx`): the orientation resolver inside
`openBowl` (cannon-es `Quaternion.vmult`, dot products with world up,
first-occurrence argmax, fixed face-to-symbol table) and the
shake/open/reveal state machine over the component's React state.
Numeric code is modelled over `ℚ`.
-/

namespace BauCua

/-- A 3-component vector, as `CANNON.Vec3`. -/
@[ext]
structure Vec3 where
  x : ℚ
  y : ℚ
  z : ℚ
deriving DecidableEq, Repr

/-- A quaternion `(x, y, z, w)`, as `CANNON.Quaternion`. -/
@[ext]
structure Quaternion where
  x : ℚ
  y : ℚ
  z : ℚ
  w : ℚ
deriving DecidableEq, Repr

/-- `Vec3.dot` from cannon-es: componentwise product sum. -/
def Vec3.dot (a b : Vec3) : ℚ :=
  a.x * b.x + a.y * b.y + a.z * b.z

/-- `Quaternion.vmult` from cannon-es: rotate vector `v` by quaternion `q`,
computing `q * v * conj(q)` exactly as the library does. -/
def Quaternion.vmult (q : Quaternion) (v : Vec3) : Vec3 :=
  let ix := q.w * v.x + q.y * v.z - q.z * v.y
  let iy := q.w * v.y + q.z * v.x - q.x * v.z
  let iz := q.w * v.z + q.x * v.y - q.y * v.x
  let iw := -q.x * v.x - q.y * v.y - q.z * v.z
  ⟨ix * q.w + iw * (-q.x) + iy * (-q.z) - iz * (-q.y),
   iy * q.w + iw * (-q.y) + iz * (-q.x) - ix * (-q.z),
   iz * q.w + iw * (-q.z) + ix * (-q.y) - iy * (-q.x)⟩

/-- `Quaternion.mult` from cannon-es: Hamilton product `a * b`. -/
def Quaternion.mult (a b : Quaternion) : Quaternion :=
  ⟨a.x * b.w + a.w * b.x + a.y * b.z - a.z * b.y,
   a.y * b.w + a.w * b.y + a.z * b.x - a.x * b.z,
   a.z * b.w + a.w * b.z + a.x * b.y - a.y * b.x,
   a.w * b.w - a.x * b.x - a.y * b.y - a.z * b.z⟩

/-- Squared norm of a quaternion; `= 1` characterises unit quaternions. -/
def Quaternion.normSq (q : Quaternion) : ℚ :=
  q.x ^ 2 + q.y ^ 2 + q.z ^ 2 + q.w ^ 2

/-- The world up vector `(0, 1, 0)` (`upVector` in `openBowl`). -/
def upVector : Vec3 :=
  ⟨0, 1, 0⟩

/-- The six local face directions in the order of `openBowl`:
+X, −X, +Y, −Y, +Z, −Z. -/
def faces : List Vec3 :=
  [⟨1, 0, 0⟩, ⟨-1, 0, 0⟩, ⟨0, 1, 0⟩, ⟨0, -1, 0⟩, ⟨0, 0, 1⟩, ⟨0, 0, -1⟩]

/-- The fixed face-index-to-symbol table `faceMap = [1, 6, 2, 5, 3, 4]`. -/
def faceMap : List ℕ :=
  [1, 6, 2, 5, 3, 4]

/-- The `maxDotIndex` loop of `openBowl`: start at index 0 and walk
`i = 1 .. dots.length − 1`, replacing the best index only on a strictly
greater dot product. -/
def maxDotIndex (dots : List ℚ) : ℕ :=
  (List.range' 1 (dots.length - 1)).foldl
    (fun best i => if dots.getD i 0 > dots.getD best 0 then i else best) 0

/-- The list of dot products computed in `openBowl`: each local face
direction is rotated by the body quaternion and dotted with world up. -/
def dotsOf (q : Quaternion) : List ℚ :=
  (faces.map (fun v => q.vmult v)).map (fun v => v.dot upVector)

/-- The whole per-die resolver of `openBowl`: look the winning face index
up in `faceMap`. -/
def resolveDie (q : Quaternion) : ℕ :=
  faceMap.getD (maxDotIndex (dotsOf q)) 0

/-- The dot product of face `i` (in enumeration order) with world up. -/
def dotAt (q : Quaternion) (i : ℕ) : ℚ :=
  (dotsOf q).getD i 0

theorem dotsOf_length (q : Quaternion) : (dotsOf q).length = 6 := by
  simp [dotsOf, faces]

/-- The loop body of the `maxDotIndex` search, abstracted for reasoning. -/
def step (ds : List ℚ) (best i : ℕ) : ℕ :=
  if ds.getD i 0 > ds.getD best 0 then i else best

theorem maxDotIndex_eq_foldl (ds : List ℚ) :
    maxDotIndex ds = (List.range' 1 (ds.length - 1)).foldl (step ds) 0 := rfl

/-- Invariant of the argmax fold: starting from a best index below the scanned
range, the fold returns either the initial best or an index in range; the
initial best never beats the result, beaten indices are strictly below it, all
scanned indices are at most the result, and indices strictly before the result
are strictly below it. -/
theorem foldl_step_spec (ds : List ℚ) :
    ∀ (n s b : ℕ), b < s →
      ((List.range' s n).foldl (step ds) b = b ∨
        (s ≤ (List.range' s n).foldl (step ds) b ∧
          (List.range' s n).foldl (step ds) b < s + n)) ∧
      ds.getD b 0 ≤ ds.getD ((List.range' s n).foldl (step ds) b) 0 ∧
      ((List.range' s n).foldl (step ds) b ≠ b →
        ds.getD b 0 < ds.getD ((List.range' s n).foldl (step ds) b) 0) ∧
      (∀ j, s ≤ j → j < s + n →
        ds.getD j 0 ≤ ds.getD ((List.range' s n).foldl (step ds) b) 0) ∧
      (∀ j, s ≤ j → j < (List.range' s n).foldl (step ds) b →
        ds.getD j 0 < ds.getD ((List.range' s n).foldl (step ds) b) 0) := by
  intro n
  induction n with
  | zero =>
      intro s b hb
      refine ⟨Or.inl rfl, le_refl _, fun h => absurd rfl h, ?_, ?_⟩
      · intro j hj hj'; omega
      · intro j hj hj'
        simp only [List.range', List.foldl] at hj'
        omega
  | succ n ih =>
      intro s b hb
      rw [List.range'_succ, List.foldl_cons]
      have hb' : step ds b s < s + 1 := by
        unfold step; split <;> omega
      obtain ⟨h1, h2, h4, h3, h5⟩ := ih (s + 1) (step ds b s) hb'
      set r := (List.range' (s + 1) n).foldl (step ds) (step ds b s) with hr
      by_cases hgt : ds.getD s 0 > ds.getD b 0
      · have hbs : step ds b s = s := by unfold step; rw [if_pos hgt]
        rw [hbs] at h1 h2 h4
        refine ⟨?_, ?_, ?_, ?_, ?_⟩
        · rcases h1 with h | ⟨hl, hu⟩
          · exact Or.inr ⟨by omega, by omega⟩
          · exact Or.inr ⟨by omega, by omega⟩
        · linarith
        · intro _; linarith
        · intro j hj hj'
          rcases Nat.eq_or_lt_of_le hj with hjs | hjs
          · rw [← hjs]; exact h2
          · exact h3 j hjs (by omega)
        · intro j hj hjr
          rcases Nat.eq_or_lt_of_le hj with hjs | hjs
          · rw [← hjs]
            exact h4 (by omega)
          · exact h5 j hjs hjr
      · have hbb : step ds b s = b := by unfold step; rw [if_neg hgt]
        push_neg at hgt
        rw [hbb] at h1 h2 h4
        refine ⟨?_, h2, h4, ?_, ?_⟩
        · rcases h1 with h | ⟨hl, hu⟩
          · exact Or.inl h
          · exact Or.inr ⟨by omega, by omega⟩
        · intro j hj hj'
          rcases Nat.eq_or_lt_of_le hj with hjs | hjs
          · rw [← hjs]; linarith
          · exact h3 j hjs (by omega)
        · intro j hj hjr
          rcases Nat.eq_or_lt_of_le hj with hjs | hjs
          · have hrb : r ≠ b := by omega
            have := h4 hrb
            rw [← hjs]; linarith
          · exact h5 j hjs hjr

/-- The argmax index is in bounds for nonempty input. -/
theorem maxDotIndex_lt_length (ds : List ℚ) (h : 0 < ds.length) :
    maxDotIndex ds < ds.length := by
  obtain ⟨h1, _, _, _, _⟩ := foldl_step_spec ds (ds.length - 1) 1 0 (by omega)
  rw [maxDotIndex_eq_foldl]
  rcases h1 with h1 | ⟨h2, h3⟩ <;> omega

/-- Every element is at most the element at the argmax index. -/
theorem maxDotIndex_max (ds : List ℚ) :
    ∀ j, j < ds.length → ds.getD j 0 ≤ ds.getD (maxDotIndex ds) 0 := by
  intro j hj
  obtain ⟨_, h2, _, h3, _⟩ := foldl_step_spec ds (ds.length - 1) 1 0 (by omega)
  rw [maxDotIndex_eq_foldl]
  rcases Nat.eq_zero_or_pos j with hj0 | hjpos
  · rw [hj0]; exact h2
  · exact h3 j hjpos (by omega)

/-- Every element strictly before the argmax index is strictly smaller:
the loop selects the first occurrence of the maximum. -/
theorem maxDotIndex_first (ds : List ℚ) :
    ∀ j, j < maxDotIndex ds → ds.getD j 0 < ds.getD (maxDotIndex ds) 0 := by
  intro j hj
  obtain ⟨_, _, h4, _, h5⟩ := foldl_step_spec ds (ds.length - 1) 1 0 (by omega)
  rw [maxDotIndex_eq_foldl] at hj ⊢
  rcases Nat.eq_zero_or_pos j with hj0 | hjpos
  · rw [hj0]; exact h4 (by omega)
  · exact h5 j hjpos hj

/-- The argmax characterisation is unique: any in-bounds index that
dominates all elements and strictly dominates all earlier ones is the
loop's result. -/
theorem maxDotIndex_unique (ds : List ℚ) (m : ℕ) (hm : m < ds.length)
    (hmax : ∀ j, j < ds.length → ds.getD j 0 ≤ ds.getD m 0)
    (hfirst : ∀ j, j < m → ds.getD j 0 < ds.getD m 0) :
    maxDotIndex ds = m := by
  have hlt := maxDotIndex_lt_length ds (by omega)
  rcases Nat.lt_trichotomy (maxDotIndex ds) m with h | h | h
  · have ha := hfirst _ h
    have hb := maxDotIndex_max ds m hm
    linarith
  · exact h
  · have ha := maxDotIndex_first ds m h
    have hb := hmax _ hlt
    linarith

/-- `vmult` of a Hamilton product is the composition of the two `vmult`s
(associativity of the quaternion sandwich product): a polynomial identity
in the components, no unitality needed. -/
theorem vmult_mult (p q : Quaternion) (v : Vec3) :
    (p.mult q).vmult v = p.vmult (q.vmult v) := by
  ext <;> simp [Quaternion.mult, Quaternion.vmult] <;> ring

/-- A pure-yaw quaternion `(0, s, 0, c)` scales the `y` component of any
vector by its squared norm `s² + c²`. -/
theorem yaw_vmult_y (s c : ℚ) (u : Vec3) :
    ((⟨0, s, 0, c⟩ : Quaternion).vmult u).y = (s ^ 2 + c ^ 2) * u.y := by
  simp [Quaternion.vmult]; ring

/-- Dotting with world up extracts the `y` component. -/
theorem dot_up (v : Vec3) : v.dot upVector = v.y := by
  simp [Vec3.dot, upVector]

/-- Rotating by a componentwise-scaled quaternion scales the result of
`vmult` by the square of the factor. -/
theorem scale_vmult (k : ℚ) (q : Quaternion) (v : Vec3) :
    (Quaternion.mk (k * q.x) (k * q.y) (k * q.z) (k * q.w)).vmult v =
      ⟨k ^ 2 * (q.vmult v).x, k ^ 2 * (q.vmult v).y, k ^ 2 * (q.vmult v).z⟩ := by
  ext <;> simp [Quaternion.vmult] <;> ring

/-- Prepending a unit yaw rotation leaves all six dot products unchanged. -/
theorem dotsOf_yaw (s c : ℚ) (h : s ^ 2 + c ^ 2 = 1) (q : Quaternion) :
    dotsOf ((⟨0, s, 0, c⟩ : Quaternion).mult q) = dotsOf q := by
  simp only [dotsOf, faces, List.map_cons, List.map_nil, dot_up, vmult_mult,
    yaw_vmult_y, h, one_mul]

/-- Scaling the quaternion componentwise scales every dot product by the
square of the factor. -/
theorem dotsOf_scale (k : ℚ) (q : Quaternion) :
    dotsOf ⟨k * q.x, k * q.y, k * q.z, k * q.w⟩ =
      (dotsOf q).map (fun d => k ^ 2 * d) := by
  simp only [dotsOf, faces, List.map_cons, List.map_nil, dot_up, scale_vmult]

theorem getD_map_sq (k : ℚ) (ds : List ℚ) (j : ℕ) (hj : j < ds.length) :
    (ds.map (fun d => k ^ 2 * d)).getD j 0 = k ^ 2 * ds.getD j 0 := by
  rw [List.getD_eq_getElem _ _ (by simpa using hj), List.getD_eq_getElem _ _ hj,
    List.getElem_map]

/-! ## The game state machine

The component's React state (`isShaking`, `isReadyToOpen`, `isBowlOpen`,
`results`) together with the cannon bodies of the three dice and the
presence of the physics world. Each event handler is modelled as the
synchronous state transformation it performs; the bodies of the two
`setTimeout` callbacks are modelled as separate transformations
(`shakeSettle`, `openReveal`). -/

/-- The pieces of a `CANNON.Body` that the component touches. -/
structure Body where
  position : Vec3
  velocity : Vec3
  angularVelocity : Vec3
  quaternion : Quaternion
  sleepState : ℕ
deriving DecidableEq, Repr

/-- The component state: the four `useState` flags/values, the dice
bodies, and whether the physics world ref is populated. -/
structure GameState where
  isShaking : Bool
  isReadyToOpen : Bool
  isBowlOpen : Bool
  results : List ℕ
  diceBodies : List Body
  worldPresent : Bool
deriving DecidableEq, Repr

/-- The per-body effect of `handleShake`: random reposition above the
bowl, random angular velocity, downward velocity, wake up.  `rand` is the
stream of `Math.random()` draws; body `i` consumes draws `5i .. 5i+4`. -/
def shakeBody (rand : ℕ → ℚ) (i : ℕ) (b : Body) : Body :=
  { b with
    position := ⟨rand (5 * i) - 1/2, 2, rand (5 * i + 1) - 1/2⟩
    angularVelocity := ⟨(rand (5 * i + 2) - 1/2) * 20,
                        (rand (5 * i + 3) - 1/2) * 20,
                        (rand (5 * i + 4) - 1/2) * 20⟩
    velocity := ⟨0, -1, 0⟩
    sleepState := 0 }

/-- `handleShake`: no-op while shaking or without a world; from an open
bowl it resets the game; otherwise it enters the shaking phase and
re-energises the dice. -/
def handleShake (s : GameState) (rand : ℕ → ℚ) : GameState :=
  if s.isShaking || !s.worldPresent then s
  else if s.isBowlOpen then
    { s with isBowlOpen := false, isReadyToOpen := false, results := [] }
  else
    { s with isShaking := true, isReadyToOpen := false,
             diceBodies := s.diceBodies.mapIdx (fun i b => shakeBody rand i b) }

/-- The body of the 2-second `setTimeout` in `handleShake`. -/
def shakeSettle (s : GameState) : GameState :=
  { s with isShaking := false, isReadyToOpen := true }

/-- `openBowl`: guarded no-op unless ready and not yet open; otherwise it
opens the bowl and schedules the result computation.  The boolean records
whether the `setTimeout` computing results was scheduled. -/
def openBowl (s : GameState) : GameState × Bool :=
  if !s.isReadyToOpen || s.isBowlOpen then (s, false)
  else ({ s with isBowlOpen := true }, true)

/-- The result computation in `openBowl`'s `setTimeout`: resolve every
die body's quaternion. -/
def computeResults (bodies : List Body) : List ℕ :=
  bodies.map (fun b => resolveDie b.quaternion)

/-- The body of the 500 ms `setTimeout` in `openBowl`. -/
def openReveal (s : GameState) : GameState :=
  { s with results := computeResults s.diceBodies }

/-- `handleMainButton`: dispatch on the current phase. -/
def handleMainButton (s : GameState) (rand : ℕ → ℚ) : GameState :=
  if s.isShaking then s
  else if !s.isReadyToOpen && !s.isBowlOpen then handleShake s rand
  else if s.isReadyToOpen && !s.isBowlOpen then (openBowl s).1
  else if s.isBowlOpen then handleShake s rand
  else s

/-- A die body at rest with a given orientation. -/
def mkBody (q : Quaternion) : Body :=
  ⟨⟨0, 0, 0⟩, ⟨0, 0, 0⟩, ⟨0, 0, 0⟩, q, 0⟩

/-! ## Claims -/

/-- C1: for every unit quaternion under which the die rests flat on one
face — exactly one of the six transformed local face directions has dot
product 1 with world up and the other five have dot product at most 0 —
the resolver returns the symbol obtained by looking up that face's index
in the fixed face-to-symbol table. -/
theorem flat_face_resolved (q : Quaternion) (i : ℕ)
    (_hunit : q.normSq = 1) (hi : i < 6)
    (htop : dotAt q i = 1)
    (hrest : ∀ j, j < 6 → j ≠ i → dotAt q j ≤ 0) :
    resolveDie q = faceMap.getD i 0 := by
  simp only [dotAt] at htop hrest
  unfold resolveDie
  congr 1
  apply maxDotIndex_unique _ i (by rw [dotsOf_length]; omega)
  · intro j hj
    rw [dotsOf_length] at hj
    rcases eq_or_ne j i with rfl | hne
    · exact le_refl _
    · have := hrest j hj hne
      rw [htop]
      linarith
  · intro j hj
    have := hrest j (by omega) (by omega)
    rw [htop]
    linarith

theorem flat_face_resolved_witness :
    resolveDie ⟨0, 0, 0, 1⟩ = faceMap.getD 2 0 :=
  flat_face_resolved ⟨0, 0, 0, 1⟩ 2
    (by norm_num [Quaternion.normSq])
    (by norm_num)
    (by norm_num [dotAt, dotsOf, Quaternion.vmult, Vec3.dot, faces, upVector, List.getD])
    (by
      intro j hj hne
      interval_cases j <;>
        first
          | exact absurd rfl hne
          | norm_num [dotAt, dotsOf, Quaternion.vmult, Vec3.dot, faces, upVector, List.getD])

/-- C2: the fixed face-index-to-symbol table maps 0→1, 1→6, 2→2, 3→5,
4→3, 5→4, and three dice whose winning face indices are 0, 2 and 5 yield
the round result [1, 2, 4]. -/
theorem faceMap_table_and_round :
    faceMap.getD 0 0 = 1 ∧ faceMap.getD 1 0 = 6 ∧ faceMap.getD 2 0 = 2 ∧
    faceMap.getD 3 0 = 5 ∧ faceMap.getD 4 0 = 3 ∧ faceMap.getD 5 0 = 4 ∧
    ∀ q0 q1 q2 : Quaternion,
      maxDotIndex (dotsOf q0) = 0 → maxDotIndex (dotsOf q1) = 2 →
      maxDotIndex (dotsOf q2) = 5 →
      computeResults [mkBody q0, mkBody q1, mkBody q2] = [1, 2, 4] := by
  refine ⟨rfl, rfl, rfl, rfl, rfl, rfl, ?_⟩
  intro q0 q1 q2 h0 h1 h2
  simp [computeResults, mkBody, resolveDie, h0, h1, h2, faceMap]

theorem faceMap_table_and_round_witness :
    computeResults
      [mkBody ⟨1/2, 1/2, 1/2, 1/2⟩, mkBody ⟨0, 0, 0, 1⟩,
        mkBody ⟨1/2, 1/2, -1/2, 1/2⟩] = [1, 2, 4] :=
  faceMap_table_and_round.2.2.2.2.2.2 _ _ _
    (by norm_num [dotsOf, maxDotIndex, Quaternion.vmult, Vec3.dot, faces, upVector,
      List.range', List.foldl, List.getD])
    (by norm_num [dotsOf, maxDotIndex, Quaternion.vmult, Vec3.dot, faces, upVector,
      List.range', List.foldl, List.getD])
    (by norm_num [dotsOf, maxDotIndex, Quaternion.vmult, Vec3.dot, faces, upVector,
      List.range', List.foldl, List.getD])

/-- C3: for every quaternion the resolver selects the face index whose
transformed direction has the algebraically maximum dot product with
world up, breaking ties by first occurrence in the fixed enumeration
order, and returns the table entry of that index. -/
theorem resolver_argmax_first (q : Quaternion) :
    (∀ j, j < 6 → dotAt q j ≤ dotAt q (maxDotIndex (dotsOf q))) ∧
    (∀ j, j < maxDotIndex (dotsOf q) →
      dotAt q j < dotAt q (maxDotIndex (dotsOf q))) ∧
    resolveDie q = faceMap.getD (maxDotIndex (dotsOf q)) 0 := by
  simp only [dotAt]
  refine ⟨?_, ?_, rfl⟩
  · intro j hj
    exact maxDotIndex_max _ j (by rw [dotsOf_length]; omega)
  · intro j hj
    exact maxDotIndex_first _ j hj

theorem resolver_argmax_first_witness :
    dotAt ⟨0, 0, 0, 1⟩ 0 ≤ dotAt ⟨0, 0, 0, 1⟩ (maxDotIndex (dotsOf ⟨0, 0, 0, 1⟩)) :=
  (resolver_argmax_first ⟨0, 0, 0, 1⟩).1 0 (by norm_num)

/-- C4 counterexample: the unit quaternion (4/9, 0, 4/9, 7/9) has two
distinct faces (indices 0 and 5) attaining the maximal dot product 56/81
with world up, so it is not the case that exactly one face attains the
maximum. -/
theorem max_face_not_unique :
    Quaternion.normSq ⟨4/9, 0, 4/9, 7/9⟩ = 1 ∧
    dotAt ⟨4/9, 0, 4/9, 7/9⟩ 0 = 56/81 ∧
    dotAt ⟨4/9, 0, 4/9, 7/9⟩ 5 = 56/81 ∧
    (∀ j, j < 6 → dotAt ⟨4/9, 0, 4/9, 7/9⟩ j ≤ dotAt ⟨4/9, 0, 4/9, 7/9⟩ 0) ∧
    ¬ (∃! i, i < 6 ∧ ∀ j, j < 6 →
        dotAt ⟨4/9, 0, 4/9, 7/9⟩ j ≤ dotAt ⟨4/9, 0, 4/9, 7/9⟩ i) := by
  have hd : dotsOf ⟨4/9, 0, 4/9, 7/9⟩ =
      [56/81, -56/81, 17/81, -17/81, -56/81, 56/81] := by
    norm_num [dotsOf, Quaternion.vmult, Vec3.dot, faces, upVector]
  have hA : ∀ j, j < 6 →
      dotAt ⟨4/9, 0, 4/9, 7/9⟩ j ≤ dotAt ⟨4/9, 0, 4/9, 7/9⟩ 0 := by
    intro j hj
    simp only [dotAt, hd]
    interval_cases j <;> norm_num [List.getD]
  have hB : ∀ j, j < 6 →
      dotAt ⟨4/9, 0, 4/9, 7/9⟩ j ≤ dotAt ⟨4/9, 0, 4/9, 7/9⟩ 5 := by
    intro j hj
    simp only [dotAt, hd]
    interval_cases j <;> norm_num [List.getD]
  refine ⟨by norm_num [Quaternion.normSq],
    by simp only [dotAt, hd]; norm_num [List.getD],
    by simp only [dotAt, hd]; norm_num [List.getD],
    hA, ?_⟩
  rintro ⟨i, ⟨hi, hmax⟩, huniq⟩
  have h0 : (0 : ℕ) = i := huniq 0 ⟨by norm_num, hA⟩
  have h5 : (5 : ℕ) = i := huniq 5 ⟨by norm_num, hB⟩
  omega

/-- C4 amended: for every unit quaternion at least one face attains the
maximum dot product with world up, and the resolver's returned symbol is
the fixed mapping of the first face, in enumeration order, attaining that
maximum. -/
theorem max_face_exists_first (q : Quaternion) (_hunit : q.normSq = 1) :
    ∃ i, i < 6 ∧ (∀ j, j < 6 → dotAt q j ≤ dotAt q i) ∧
      (∀ j, j < i → dotAt q j < dotAt q i) ∧
      resolveDie q = faceMap.getD i 0 := by
  refine ⟨maxDotIndex (dotsOf q), ?_, ?_, ?_, rfl⟩
  · have := maxDotIndex_lt_length (dotsOf q) (by rw [dotsOf_length]; norm_num)
    rwa [dotsOf_length] at this
  · intro j hj
    exact maxDotIndex_max _ j (by rw [dotsOf_length]; omega)
  · intro j hj
    exact maxDotIndex_first _ j hj

theorem max_face_exists_first_witness :
    ∃ i, i < 6 ∧
      (∀ j, j < 6 → dotAt ⟨0, 0, 0, 1⟩ j ≤ dotAt ⟨0, 0, 0, 1⟩ i) ∧
      (∀ j, j < i → dotAt ⟨0, 0, 0, 1⟩ j < dotAt ⟨0, 0, 0, 1⟩ i) ∧
      resolveDie ⟨0, 0, 0, 1⟩ = faceMap.getD i 0 :=
  max_face_exists_first ⟨0, 0, 0, 1⟩ (by norm_num [Quaternion.normSq])

/-- C5 counterexample: from the Open phase (bowl open, not shaking,
world present) a shake trigger leaves `isShaking` false — the state
machine resets to Idle instead of transitioning back to Shaking. -/
theorem open_shake_not_shaking :
    (handleShake ⟨false, true, true, [1, 1, 1], [], true⟩ (fun _ => 0)).isShaking
        = false ∧
    handleShake ⟨false, true, true, [1, 1, 1], [], true⟩ (fun _ => 0) =
      ⟨false, false, false, [], [], true⟩ := by
  constructor <;> rfl

/-- C5 amended: when the game is in the Open phase and the user triggers
a shake, the state machine resets to the Idle phase — all three phase
flags cleared, so it does not re-enter Shaking — and the previous round
result is cleared. -/
theorem open_shake_resets (s : GameState) (rand : ℕ → ℚ)
    (hopen : s.isBowlOpen = true) (hns : s.isShaking = false)
    (hw : s.worldPresent = true) :
    handleShake s rand =
      { s with isBowlOpen := false, isReadyToOpen := false, results := [] } := by
  simp [handleShake, hopen, hns, hw]

theorem open_shake_resets_witness :
    handleShake ⟨false, true, true, [2, 2, 2], [], true⟩ (fun _ => 0) =
      ⟨false, false, false, [], [], true⟩ :=
  open_shake_resets ⟨false, true, true, [2, 2, 2], [], true⟩ (fun _ => 0) rfl rfl rfl

/-- C6: composing any unit pure-yaw quaternion (rotation about world up
alone, so with zero x and z components) with an orientation does not
change the resolver's output. -/
theorem yaw_invariant (q r : Quaternion) (hx : r.x = 0) (hz : r.z = 0)
    (hunit : r.normSq = 1) :
    resolveDie (r.mult q) = resolveDie q := by
  obtain ⟨x, y, z, w⟩ := r
  simp only at hx hz
  subst hx hz
  have h : y ^ 2 + w ^ 2 = 1 := by
    have := hunit
    simp only [Quaternion.normSq] at this
    linarith [this]
  unfold resolveDie
  rw [dotsOf_yaw y w h q]

theorem yaw_invariant_witness :
    resolveDie (Quaternion.mult ⟨0, 3/5, 0, 4/5⟩ ⟨1/2, 1/2, 1/2, 1/2⟩) =
      resolveDie ⟨1/2, 1/2, 1/2, 1/2⟩ :=
  yaw_invariant ⟨1/2, 1/2, 1/2, 1/2⟩ ⟨0, 3/5, 0, 4/5⟩ rfl rfl
    (by norm_num [Quaternion.normSq])

/-- C7: a shake request while already Shaking is a no-op — the whole
state (phase flags, round result and dice bodies) is returned unchanged,
both through `handleShake` and through the main button dispatcher. -/
theorem shake_while_shaking_noop (s : GameState) (rand : ℕ → ℚ)
    (h : s.isShaking = true) :
    handleShake s rand = s ∧ handleMainButton s rand = s := by
  constructor <;> simp [handleShake, handleMainButton, h]

theorem shake_while_shaking_noop_witness :
    handleShake ⟨true, false, false, [], [mkBody ⟨0, 0, 0, 1⟩], true⟩ (fun _ => 0) =
        ⟨true, false, false, [], [mkBody ⟨0, 0, 0, 1⟩], true⟩ ∧
      handleMainButton ⟨true, false, false, [], [mkBody ⟨0, 0, 0, 1⟩], true⟩
          (fun _ => 0) =
        ⟨true, false, false, [], [mkBody ⟨0, 0, 0, 1⟩], true⟩ :=
  shake_while_shaking_noop ⟨true, false, false, [], [mkBody ⟨0, 0, 0, 1⟩], true⟩
    (fun _ => 0) rfl

/-- C8: the resolver is total — the face-table index it computes is
always below 6 and the returned symbol is always between 1 and 6. -/
theorem resolver_total (q : Quaternion) :
    maxDotIndex (dotsOf q) < 6 ∧ 1 ≤ resolveDie q ∧ resolveDie q ≤ 6 := by
  have h6 : maxDotIndex (dotsOf q) < 6 := by
    have := maxDotIndex_lt_length (dotsOf q) (by rw [dotsOf_length]; norm_num)
    rwa [dotsOf_length] at this
  refine ⟨h6, ?_, ?_⟩ <;>
    · unfold resolveDie
      set m := maxDotIndex (dotsOf q) with hm
      interval_cases m <;> simp [faceMap]

/-- C9: scaling the input quaternion by any positive rational scalar does
not change the resolver's output, since every dot product is scaled by
the same positive factor and the argmax is unchanged. -/
theorem scale_invariant (q : Quaternion) (k : ℚ) (hk : 0 < k) :
    resolveDie ⟨k * q.x, k * q.y, k * q.z, k * q.w⟩ = resolveDie q := by
  have hlen : (dotsOf q).length = 6 := dotsOf_length q
  have hmlt : maxDotIndex (dotsOf q) < (dotsOf q).length :=
    maxDotIndex_lt_length (dotsOf q) (by rw [hlen]; norm_num)
  unfold resolveDie
  rw [dotsOf_scale k q]
  congr 1
  apply maxDotIndex_unique
  · rw [List.length_map]; exact hmlt
  · intro j hj
    rw [List.length_map] at hj
    rw [getD_map_sq _ _ _ hj, getD_map_sq _ _ _ hmlt]
    exact mul_le_mul_of_nonneg_left (maxDotIndex_max _ j hj) (by positivity)
  · intro j hj
    have hjlt : j < (dotsOf q).length := by omega
    rw [getD_map_sq _ _ _ hjlt, getD_map_sq _ _ _ hmlt]
    exact mul_lt_mul_of_pos_left (maxDotIndex_first _ j hj) (by positivity)

theorem scale_invariant_witness :
    resolveDie ⟨3 * (1/2), 3 * (1/2), 3 * (1/2), 3 * (1/2)⟩ =
      resolveDie ⟨1/2, 1/2, 1/2, 1/2⟩ :=
  scale_invariant ⟨1/2, 1/2, 1/2, 1/2⟩ 3 (by norm_num)

/-- C10: an open request when not ReadyToOpen, or when the bowl is
already open, is a no-op — the state is unchanged and no result
computation is scheduled. -/
theorem open_guard_noop (s : GameState)
    (h : s.isReadyToOpen = false ∨ s.isBowlOpen = true) :
    openBowl s = (s, false) := by
  rcases h with h | h <;> simp [openBowl, h]

theorem open_guard_noop_witness :
    openBowl ⟨false, false, false, [], [], true⟩ =
      (⟨false, false, false, [], [], true⟩, false) :=
  open_guard_noop ⟨false, false, false, [], [], true⟩ (Or.inl rfl)

end BauCua
